import Mathlib

/-!
Shallow embedding of the QMC5883LCompass Arduino driver
(QMC5883LCompass.cpp / QMC5883LCompass.h).

The driver class holds, per instance: raw axis values, calibration bounds
and calibrated values, a 10-slot rolling history per axis with running
sums, a write cursor, smoothed values, and configuration flags.  We model
the instance state as an explicit structure and each member function as a
state-passing Lean function.  Machine integers (C int and long) are
modelled as Int; C integer division and remainder truncate toward zero,
which is Int.tdiv / Int.tmod in Lean.  The driver computes with floats in
two places: the calibration scale and product are single-precision
(binary32) operations and are modelled bit-faithfully by an explicit
round-to-nearest-even significand/exponent model (F32 below); the azimuth
quotient in getBearing is a double computation that is exact over the
relevant range and is modelled as exact arithmetic.  Each modelling
choice is documented at the definition that makes it.
-/

namespace QMC5883L

/-- Driver instance state.  Field correspondence with the C++ class:
smoothUse = _smoothUse, smoothSteps = _smoothSteps (a byte),
smoothAdvanced = _smoothAdvanced, rawX/rawY/rawZ = _vRaw[0..2],
histX/histY/histZ = columns 0..2 of _vHistory[10][3] (each a 10-element
list), scan = _vScan, totalX/totalY/totalZ = _vTotals[0..2],
smoothX/smoothY/smoothZ = _vSmooth[0..2], calibrationUse = _calibrationUse,
calXmin/calXmax/... = _vCalibration[0][0], _vCalibration[0][1], ...,
calibX/calibY/calibZ = _vCalibrated[0..2]. -/
structure CompassState where
  smoothUse : Bool
  smoothSteps : Nat
  smoothAdvanced : Bool
  rawX : Int
  rawY : Int
  rawZ : Int
  histX : List Int
  histY : List Int
  histZ : List Int
  scan : Nat
  totalX : Int
  totalY : Int
  totalZ : Int
  smoothX : Int
  smoothY : Int
  smoothZ : Int
  calibrationUse : Bool
  calXmin : Int
  calXmax : Int
  calYmin : Int
  calYmax : Int
  calZmin : Int
  calZmax : Int
  calibX : Int
  calibY : Int
  calibZ : Int
deriving DecidableEq

/-- State of a driver instance in zero-initialized static storage (the
usual global QMC5883LCompass compass object of an Arduino sketch), with
the in-class initializers of the header applied: _smoothUse = false,
_smoothSteps = 5, _smoothAdvanced = false, _vRaw = {0,0,0}, _vScan = 0,
_vTotals = {0,0,0}, _vSmooth = {0,0,0}, _calibrationUse = false; the
members without initializers (_vHistory, _vCalibration, _vCalibrated) are
zero from static storage. -/
def initialState : CompassState where
  smoothUse := false
  smoothSteps := 5
  smoothAdvanced := false
  rawX := 0
  rawY := 0
  rawZ := 0
  histX := List.replicate 10 0
  histY := List.replicate 10 0
  histZ := List.replicate 10 0
  scan := 0
  totalX := 0
  totalY := 0
  totalZ := 0
  smoothX := 0
  smoothY := 0
  smoothZ := 0
  calibrationUse := false
  calXmin := 0
  calXmax := 0
  calYmin := 0
  calYmax := 0
  calZmin := 0
  calZmax := 0
  calibX := 0
  calibY := 0
  calibZ := 0

/-- Axis view of _vRaw: rawAx s i = _vRaw[i]. -/
def rawAx (s : CompassState) : Fin 3 → Int
  | 0 => s.rawX
  | 1 => s.rawY
  | 2 => s.rawZ

/-- Axis view of the _vHistory columns: histAx s i = column i of _vHistory. -/
def histAx (s : CompassState) : Fin 3 → List Int
  | 0 => s.histX
  | 1 => s.histY
  | 2 => s.histZ

/-- Axis view of _vTotals: totalAx s i = _vTotals[i]. -/
def totalAx (s : CompassState) : Fin 3 → Int
  | 0 => s.totalX
  | 1 => s.totalY
  | 2 => s.totalZ

/-- Axis view of _vSmooth: smoothAx s i = _vSmooth[i]. -/
def smoothAx (s : CompassState) : Fin 3 → Int
  | 0 => s.smoothX
  | 1 => s.smoothY
  | 2 => s.smoothZ

/-- Axis view of _vCalibrated: calibAx s i = _vCalibrated[i]. -/
def calibAx (s : CompassState) : Fin 3 → Int
  | 0 => s.calibX
  | 1 => s.calibY
  | 2 => s.calibZ

/-- setSmoothing(byte steps, bool adv): _smoothUse = true; _smoothSteps =
(steps > 10) ? 10 : steps; _smoothAdvanced = adv.  The steps parameter is
a byte, so it is reduced mod 256 before the comparison. -/
def setSmoothing (s : CompassState) (steps : Nat) (adv : Bool) : CompassState :=
  let st := steps % 256
  { s with
    smoothUse := true
    smoothSteps := if st > 10 then 10 else st
    smoothAdvanced := adv }

/-- setCalibration(x_min, x_max, y_min, y_max, z_min, z_max): stores the
six bounds in _vCalibration and sets _calibrationUse = true. -/
def setCalibration (s : CompassState)
    (xmin xmax ymin ymax zmin zmax : Int) : CompassState :=
  { s with
    calibrationUse := true
    calXmin := xmin
    calXmax := xmax
    calYmin := ymin
    calYmax := ymax
    calZmin := zmin
    calZmax := zmax }

/-- QMC5883LCompass::_get(int i): if (_smoothUse) return _vSmooth[i];
if (_calibrationUse) return _vCalibrated[i]; return _vRaw[i]. -/
def _get (s : CompassState) (i : Fin 3) : Int :=
  if s.smoothUse then smoothAx s i
  else if s.calibrationUse then calibAx s i
  else rawAx s i

/-- QMC5883LCompass::getX(): return _get(0). -/
def getX (s : CompassState) : Int := _get s 0

/-- QMC5883LCompass::getY(): return _get(1). -/
def getY (s : CompassState) : Int := _get s 1

/-- QMC5883LCompass::getZ(): return _get(2). -/
def getZ (s : CompassState) : Int := _get s 2

/-- Reinterpretation of the low 16 bits of a nonnegative machine word as
a two's-complement signed 16-bit value: the (int)(int16_t) cast in read(). -/
def toInt16 (n : Nat) : Int :=
  let m := n % 65536
  if m < 32768 then (m : Int) else (m : Int) - 65536

/-- Byte reassembly of one axis in read():
(int)(int16_t)(Wire.read() | Wire.read() << 8), with lo the first byte
read (the low byte) and hi the second. -/
def reassemble (lo hi : Nat) : Int := toInt16 (lo ||| (hi <<< 8))

/-- Two's-complement 16-bit representation of a signed value: the bits an
int16 value v occupies on the wire. -/
def int16Bits (v : Int) : Nat := (v % 65536).toNat

/-- Low byte of the 16-bit two's-complement representation of v. -/
def lowByte (v : Int) : Nat := int16Bits v % 256

/-- High byte of the 16-bit two's-complement representation of v. -/
def highByte (v : Int) : Nat := int16Bits v / 256

/-- Truncation toward zero of an exact rational, the behaviour of the C
cast from float to int.  A reduced rational has positive denominator, so
Int.tdiv of numerator by denominator is exactly the integral part. -/
def ratTrunc (q : ℚ) : Int := q.num.tdiv (q.den : Int)

/-- Fuel-driven floor of log2: log2Fuel fuel n counts how often n can be
halved before dropping below 2, correct whenever n ≤ fuel. -/
def log2Fuel : Nat → Nat → Nat
  | 0, _ => 0
  | fuel + 1, n => if 2 ≤ n then log2Fuel fuel (n / 2) + 1 else 0

/-- Floor of log2 of a positive natural: the unique L with 2^L ≤ n < 2^(L+1). -/
def nlog2 (n : Nat) : Nat := log2Fuel n n

/-- Floor of log2 of the positive ratio a / b (a, b at least 1): the
unique z with 2^z ≤ a/b < 2^(z+1).  The candidate nlog2 a - nlog2 b is
off by at most one and the comparison picks the right value. -/
def ratLog2 (a b : Nat) : Int :=
  let z : Int := (nlog2 a : Int) - (nlog2 b : Int)
  if 0 ≤ z then (if b * 2 ^ z.toNat ≤ a then z else z - 1)
  else (if b ≤ a * 2 ^ (-z).toNat then z else z - 1)

/-- A finite IEEE binary32 value, represented exactly: the value is
m * 2^e with an integer significand m (24 bits after rounding, carrying
the sign) and an unbiased-and-shifted exponent e.  The binary32 exponent
range is not enforced by the representation; every value reached by the
calibration theorems below lies well inside the normal range, far from
both overflow and subnormals. -/
structure F32 where
  m : Int
  e : Int
deriving DecidableEq

/-- Round the positive ratio a / b (a, b at least 1) to 24 significant
bits, round to nearest with ties to even: IEEE binary32 rounding of a
normal positive value, in pure integer arithmetic.  The ratio is scaled
by a power of two so that the scaled value A / B lies in [2^23, 2^24),
then A / B is rounded to the nearest integer significand (ties to the
even significand); a carry to 2^24 is left as is, the value m * 2^e
remaining correct. -/
def roundRat24 (a b : Nat) : F32 :=
  let z := ratLog2 a b
  let e := z - 23
  let A := if 0 ≤ e then a else a * 2 ^ (-e).toNat
  let B := if 0 ≤ e then b * 2 ^ e.toNat else b
  let q := A / B
  let r := A % B
  let m := if 2 * r < B then q
           else if B < 2 * r then q + 1
           else if q % 2 = 0 then q else q + 1
  ⟨(m : Int), e⟩

/-- Signed binary32 rounding of the integer ratio num / den (den ≥ 1). -/
def f32ofRat (num : Int) (den : Nat) : F32 :=
  if num = 0 then ⟨0, 0⟩
  else if 0 < num then roundRat24 num.toNat den
  else
    let f := roundRat24 (-num).toNat den
    ⟨-f.m, f.e⟩

/-- The C int-to-float conversion: n rounded to binary32.  Exact for
|n| ≤ 2^24; beyond that the nearest representable is picked, e.g.
16777217 rounds to 16777216 (tie to even). -/
def f32ofInt (n : Int) : F32 := f32ofRat n 1

/-- Correctly rounded binary32 division: the rounding of the exact
quotient of the operand values (scaling by powers of two commutes with
binary rounding, so only the significand ratio needs rounding).
Division by zero produces an infinity or NaN in the program; it is not
modelled (a zero result stands in) and every calibration theorem below
keeps its divisors nonzero. -/
def f32div (x y : F32) : F32 :=
  if x.m = 0 ∨ y.m = 0 then ⟨0, 0⟩
  else
    let f := roundRat24 x.m.natAbs y.m.natAbs
    ⟨x.m.sign * y.m.sign * f.m, f.e + (x.e - y.e)⟩

/-- Correctly rounded binary32 multiplication: the rounding of the exact
product of the operand values. -/
def f32mul (x y : F32) : F32 :=
  if x.m = 0 ∨ y.m = 0 then ⟨0, 0⟩
  else
    let f := roundRat24 (x.m * y.m).natAbs 1
    ⟨x.m.sign * y.m.sign * f.m, f.e + (x.e + y.e)⟩

/-- The C float-to-int cast: truncation of m * 2^e toward zero (the int
range check is not modelled, consistently with machine integers being
modelled as unbounded Int throughout). -/
def f32toInt (x : F32) : Int :=
  if 0 ≤ x.e then x.m * 2 ^ x.e.toNat
  else x.m.tdiv (2 ^ (-x.e).toNat)

/-- QMC5883LCompass::_applyCalibration().  Offsets and average deltas are
C int arithmetic (truncating division, Int.tdiv).  The per-axis scale is
the single-precision quotient (float)avg_delta / x_avg_delta: both
operands are rounded to binary32 (the explicit cast on avg_delta, the
usual arithmetic conversion on the int divisor) and the division is
correctly rounded.  The calibrated value is the int difference
raw - offset converted to binary32, multiplied by the scale with correct
binary32 rounding, and truncated toward zero by the assignment to int.
A zero average delta on some axis (bounds with max - min ≤ 1) makes the
program divide by zero in float; that corner is not modelled (see f32div)
and the calibration theorems below exclude it. -/
def _applyCalibration (s : CompassState) : CompassState :=
  let x_offset := (s.calXmin + s.calXmax).tdiv 2
  let y_offset := (s.calYmin + s.calYmax).tdiv 2
  let z_offset := (s.calZmin + s.calZmax).tdiv 2
  let x_avg_delta := (s.calXmax - s.calXmin).tdiv 2
  let y_avg_delta := (s.calYmax - s.calYmin).tdiv 2
  let z_avg_delta := (s.calZmax - s.calZmin).tdiv 2
  let avg_delta := (x_avg_delta + y_avg_delta + z_avg_delta).tdiv 3
  let x_scale := f32div (f32ofInt avg_delta) (f32ofInt x_avg_delta)
  let y_scale := f32div (f32ofInt avg_delta) (f32ofInt y_avg_delta)
  let z_scale := f32div (f32ofInt avg_delta) (f32ofInt z_avg_delta)
  { s with
    calibX := f32toInt (f32mul (f32ofInt (s.rawX - x_offset)) x_scale)
    calibY := f32toInt (f32mul (f32ofInt (s.rawY - y_offset)) y_scale)
    calibZ := f32toInt (f32mul (f32ofInt (s.rawZ - z_offset)) z_scale) }

/-- One iteration step of the advanced-mode max scan in _smoothing():
max = ( _vHistory[j][i] > _vHistory[max][i] ) ? j : max. -/
def argmaxStep (hist : List Int) (acc j : Nat) : Nat :=
  if hist.getD j 0 > hist.getD acc 0 then j else acc

/-- One iteration step of the advanced-mode min scan in _smoothing():
min = ( _vHistory[k][i] < _vHistory[min][i] ) ? k : min. -/
def argminStep (hist : List Int) (acc j : Nat) : Nat :=
  if hist.getD j 0 < hist.getD acc 0 then j else acc

/-- Result of the loop: max = 0; for (j = 0; j < m; j++) max = step.
In the source m is _smoothSteps - 1, so slots 0 .. _smoothSteps - 2 are
scanned. -/
def argmaxIdx (hist : List Int) (m : Nat) : Nat :=
  (List.range m).foldl (argmaxStep hist) 0

/-- Result of the loop: min = 0; for (k = 0; k < m; k++) min = step. -/
def argminIdx (hist : List Int) (m : Nat) : Nat :=
  (List.range m).foldl (argminStep hist) 0

/-- Per-axis body of one _smoothing() call: the conditional subtraction
of the slot leaving the window (skipped when the running total is zero),
the overwrite of the slot with the calibrated-or-raw sample, the add to
the running total, and the computation of _vSmooth[i] in advanced or
basic mode.  Returns (new history column, new running total, new smooth
value).  Divisions are C truncating division on int/long (Int.tdiv). -/
def axisSmoothUpdate (steps : Nat) (advanced calUse : Bool) (scan : Nat)
    (hist : List Int) (total raw calib : Int) : List Int × Int × Int :=
  let newVal := if calUse then calib else raw
  let total1 := if total ≠ 0 then total - hist.getD scan 0 else total
  let hist1 := hist.set scan newVal
  let total2 := total1 + newVal
  let smooth :=
    if advanced then
      let mx := argmaxIdx hist1 (steps - 1)
      let mn := argminIdx hist1 (steps - 1)
      (total2 - (hist1.getD mx 0 + hist1.getD mn 0)).tdiv ((steps : Int) - 2)
    else
      total2.tdiv (steps : Int)
  (hist1, total2, smooth)

/-- Cursor value used by the current _smoothing() call after the entry
wrap: if ( _vScan > _smoothSteps - 1 ) _vScan = 0.  The comparison is C
int arithmetic, so _smoothSteps - 1 is computed in Int. -/
def effScan (s : CompassState) : Nat :=
  if (s.scan : Int) > (s.smoothSteps : Int) - 1 then 0 else s.scan

/-- QMC5883LCompass::_smoothing(): wraps the cursor, runs the per-axis
body for the three axes (the axes touch disjoint state, so the
interleaving of the source loop is equivalent to three independent axis
updates at the same cursor), then increments the cursor. -/
def _smoothing (s : CompassState) : CompassState :=
  let sc := effScan s
  let ux := axisSmoothUpdate s.smoothSteps s.smoothAdvanced s.calibrationUse sc
      s.histX s.totalX s.rawX s.calibX
  let uy := axisSmoothUpdate s.smoothSteps s.smoothAdvanced s.calibrationUse sc
      s.histY s.totalY s.rawY s.calibY
  let uz := axisSmoothUpdate s.smoothSteps s.smoothAdvanced s.calibrationUse sc
      s.histZ s.totalZ s.rawZ s.calibZ
  { s with
    histX := ux.1
    totalX := ux.2.1
    smoothX := ux.2.2
    histY := uy.1
    totalY := uy.2.1
    smoothY := uy.2.2
    histZ := uz.1
    totalZ := uz.2.1
    smoothZ := uz.2.2
    scan := sc + 1 }

/-- Outcome of the bus transactions of one read() call: the status
returned by Wire.endTransmission() after the register-pointer write, and
the six data bytes delivered by the burst read, in arrival order. -/
structure BusResponse where
  status : Nat
  b0 : Nat
  b1 : Nat
  b2 : Nat
  b3 : Nat
  b4 : Nat
  b5 : Nat
deriving DecidableEq

/-- QMC5883LCompass::read(): issues the register-pointer write; if the
returned status err satisfies !err (i.e. err = 0) it burst-reads six
bytes, reassembles the three raw axis values, then applies calibration
and smoothing when enabled, in that order; otherwise the whole body is
skipped and the state is untouched.  The source returns void: no error is
surfaced. -/
def read (bus : BusResponse) (s : CompassState) : CompassState :=
  if bus.status = 0 then
    let s1 := { s with
      rawX := reassemble bus.b0 bus.b1
      rawY := reassemble bus.b2 bus.b3
      rawZ := reassemble bus.b4 bus.b5 }
    let s2 := if s1.calibrationUse then _applyCalibration s1 else s1
    if s2.smoothUse then _smoothing s2 else s2
  else s

/-- QMC5883LCompass::getBearing(int azimuth), modelled for nonnegative
azimuth.  The source computes unsigned long a = azimuth / 22.5.  Since
22.5 is exactly 45/2 in binary floating point and IEEE division is
correctly rounded, truncating the double quotient azimuth / 22.5 to an
integer gives exactly 2 * azimuth / 45 in truncated integer arithmetic
for every azimuth below 2 ^ 20: the double quotient is exact whenever the
real quotient is an integer, and otherwise the real quotient is at least
1/45 away from the nearest integer while the rounding error is far
smaller.  Then r = a - (int)a is identically zero because a is already an
integer, so the tie test r >= .5 (here: 2 * r >= 1 in exact arithmetic)
always fails and both branches return a; the ceil and floor of the
integral value a are both a itself.  The byte return type reduces the
result mod 256. -/
def getBearing (azimuth : Nat) : Nat :=
  let a : Nat := 2 * azimuth / 45
  let r : Nat := a - a
  let sexdec : Nat := if 2 * r ≥ 1 then a else a
  sexdec % 256

/-- The fixed 16-row bearing label table _bearings of the header. -/
def _bearings : List (List Char) :=
  [[' ', ' ', 'N'],
   ['N', 'N', 'E'],
   [' ', 'N', 'E'],
   ['E', 'N', 'E'],
   [' ', ' ', 'E'],
   ['E', 'S', 'E'],
   [' ', 'S', 'E'],
   ['S', 'S', 'E'],
   [' ', ' ', 'S'],
   ['S', 'S', 'W'],
   [' ', 'S', 'W'],
   ['W', 'S', 'W'],
   [' ', ' ', 'W'],
   ['W', 'N', 'W'],
   [' ', 'N', 'W'],
   ['N', 'N', 'W']]

/-- QMC5883LCompass::getDirection(char* myArray, int azimuth): copies row
getBearing(azimuth) of _bearings into the caller's buffer.  The C array
access has no bounds check; an index outside 0..15 reads out of range, so
the lookup is modelled fallibly: none models the out-of-range access. -/
def getDirection (azimuth : Nat) : Option (List Char) :=
  _bearings[getBearing azimuth]?

/-- Sum of the current window contents of one axis: slots 0 .. n - 1 of
the history column, n the configured window size. -/
def windowSum (hist : List Int) (n : Nat) : Int := (hist.take n).sum

/-- Window state fresh from a zero-initialized instance, after
setSmoothing(5, false): the starting point of the basic-smoothing trace. -/
def c7Start : CompassState := setSmoothing initialState 5 false

/-- Bus outcome of a successful cycle delivering the X-axis sample v
(0 <= v < 128, so high byte zero) and zero for Y and Z. -/
def busX (v : Nat) : BusResponse :=
  { status := 0, b0 := v, b1 := 0, b2 := 0, b3 := 0, b4 := 0, b5 := 0 }

/-- Bus outcome whose register-pointer write failed with status 2
(received NACK on transmit of address). -/
def failBus : BusResponse :=
  { status := 2, b0 := 0, b1 := 0, b2 := 0, b3 := 0, b4 := 0, b5 := 0 }

/-- Window size 2, basic mode, from a fresh instance. -/
def c2s0 : CompassState := setSmoothing initialState 2 false

/-- First acquisition of the C2 trace: X sample 5. -/
def c2Read1 : CompassState := read { failBus with status := 0, b0 := 5 } c2s0

/-- Second acquisition of the C2 trace: X sample -5 (bytes 251, 255). -/
def c2Read2 : CompassState := read { failBus with status := 0, b0 := 251, b1 := 255 } c2Read1

/-- Third acquisition of the C2 trace: X sample 7.  The running X total is
now zero while slot 0 still holds the evicted value 5, so the guarded
subtraction is skipped and the total diverges from the window sum. -/
def c2Read3 : CompassState := read { failBus with status := 0, b0 := 7 } c2Read2

/-- What claim C2 (amended) asserts of one smoothing update on axis i:
the slot at the wrapped cursor is overwritten with the calibrated-or-raw
sample; the running total is decremented by the outgoing slot value only
when it was nonzero, then incremented by the new sample; the cursor is
incremented once (its wrap happening at the start of the next update);
and the running total again equals the window sum provided it did before
and the skipped-subtraction guard was not hit on a nonzero slot. -/
def C2Prop (s : CompassState) (i : Fin 3) : Prop :=
  (histAx (_smoothing s) i =
      (histAx s i).set (effScan s) (if s.calibrationUse then calibAx s i else rawAx s i)) ∧
  (totalAx (_smoothing s) i =
      (if totalAx s i ≠ 0 then totalAx s i - (histAx s i).getD (effScan s) 0 else totalAx s i)
        + (if s.calibrationUse then calibAx s i else rawAx s i)) ∧
  ((_smoothing s).scan = effScan s + 1) ∧
  (totalAx s i = windowSum (histAx s i) s.smoothSteps →
    (totalAx s i ≠ 0 ∨ (histAx s i).getD (effScan s) 0 = 0) →
    totalAx (_smoothing s) i = windowSum (histAx (_smoothing s) i) s.smoothSteps)

/-- What claim C4 asserts of one advanced-mode smoothing update on axis i:
there are indices a and b, both within 0 .. N - 2, holding a maximum
resp. minimum of the updated history over exactly that scan range, such
that the smoothed value is (running sum - slot a - slot b) divided by
N - 2 with C truncating division. -/
def C4Prop (s : CompassState) (i : Fin 3) : Prop :=
  ∃ a b : Nat, a ≤ s.smoothSteps - 2 ∧ b ≤ s.smoothSteps - 2 ∧
    (∀ j, j ≤ s.smoothSteps - 2 →
      (histAx (_smoothing s) i).getD j 0 ≤ (histAx (_smoothing s) i).getD a 0) ∧
    (∀ j, j ≤ s.smoothSteps - 2 →
      (histAx (_smoothing s) i).getD b 0 ≤ (histAx (_smoothing s) i).getD j 0) ∧
    smoothAx (_smoothing s) i =
      (totalAx (_smoothing s) i -
        ((histAx (_smoothing s) i).getD a 0 + (histAx (_smoothing s) i).getD b 0)).tdiv
        ((s.smoothSteps : Int) - 2)

/-- Average delta over the three axes as _applyCalibration computes it:
per-axis (max - min) / 2 in C int division, then the mean of the three,
again in C int division. -/
def avgDeltaAll (s : CompassState) : Int :=
  (((s.calXmax - s.calXmin).tdiv 2) + ((s.calYmax - s.calYmin).tdiv 2)
    + ((s.calZmax - s.calZmin).tdiv 2)).tdiv 3

/-- One axis of the calibration formula with its floating-point steps
read as exact real arithmetic: offset = (min + max) / 2 by integer
division, avg_delta = (max - min) / 2 by integer division, scale =
avg_delta_all / avg_delta as an exact quotient, calibrated =
(raw - offset) * scale truncated toward zero.  This is the value the
original claim asserts; the program's binary32 roundings deviate from it
once an intermediate needs more than 24 significant bits. -/
def calibExactAxis (raw cmin cmax avgAll : Int) : Int :=
  let offset := (cmin + cmax).tdiv 2
  let avgDelta := (cmax - cmin).tdiv 2
  let scale : ℚ := (avgAll : ℚ) / (avgDelta : ℚ)
  ratTrunc (((raw - offset : Int) : ℚ) * scale)

/-- One axis of the calibration correction from the words of the
specification, with the floating-point steps given binary32 semantics:
offset and avg_delta by integer division, scale = avg_delta_all /
avg_delta as a correctly rounded binary32 division of binary32-rounded
operands, calibrated value = (raw - offset) * scale as a binary32
product of the binary32-rounded difference, truncated to integer. -/
def calibFloatAxis (raw cmin cmax avgAll : Int) : Int :=
  let offset := (cmin + cmax).tdiv 2
  let avgDelta := (cmax - cmin).tdiv 2
  let scale := f32div (f32ofInt avgAll) (f32ofInt avgDelta)
  f32toInt (f32mul (f32ofInt (raw - offset)) scale)

/-- What claim C5 (amended) asserts: each calibrated axis value follows
the offset / average-delta / scale formula with every floating-point
step rounded to binary32, and with bounds (-100, 100) on all three axes
the scale is exactly one and calibration is the identity on raw samples
in the int16 range (where the int-to-float conversion is exact). -/
def C5Prop (s : CompassState) : Prop :=
  ((_applyCalibration s).calibX = calibFloatAxis s.rawX s.calXmin s.calXmax (avgDeltaAll s) ∧
   (_applyCalibration s).calibY = calibFloatAxis s.rawY s.calYmin s.calYmax (avgDeltaAll s) ∧
   (_applyCalibration s).calibZ = calibFloatAxis s.rawZ s.calZmin s.calZmax (avgDeltaAll s)) ∧
  (s.calXmin = -100 → s.calXmax = 100 → s.calYmin = -100 → s.calYmax = 100 →
   s.calZmin = -100 → s.calZmax = 100 →
   (-32768 ≤ s.rawX → s.rawX ≤ 32767 → (_applyCalibration s).calibX = s.rawX) ∧
   (-32768 ≤ s.rawY → s.rawY ≤ 32767 → (_applyCalibration s).calibY = s.rawY) ∧
   (-32768 ≤ s.rawZ → s.rawZ ≤ 32767 → (_applyCalibration s).calibZ = s.rawZ))

/-- Calibration bounds x:(0,2), y:(0,50331650), z:(0,50331651) with raw
X sample 3.  The average deltas are 1, 25165825 and 25165825; their mean
16777217 = 2^24 + 1 is the smallest positive integer binary32 cannot
represent, and the cast (float)16777217 rounds to 16777216 (tie to
even), so the program computes calibrated X = 2 * 16777216 = 33554432
where exact arithmetic gives 2 * 16777217 = 33554434. -/
def c5CxState : CompassState :=
  setCalibration { initialState with rawX := 3 } 0 2 0 50331650 0 50331651

/-- Calibration state for the symmetric-bounds instance: bounds
(-100, 100) on all axes, raw sample (7, -3, 12). -/
def c5State : CompassState :=
  setCalibration { initialState with rawX := 7, rawY := -3, rawZ := 12 }
    (-100) 100 (-100) 100 (-100) 100

/-- State with both smoothing and calibration enabled and distinct
smoothed, calibrated and raw values on axis X. -/
def c8State : CompassState :=
  { (setCalibration (setSmoothing initialState 5 false) (-10) 10 (-10) 10 (-10) 10) with
    smoothX := 1, calibX := 2, rawX := 3 }

/-- Setting a valid index and summing: the sum changes by the new value
minus the value previously at that index. -/
theorem sum_set_getD (l : List Int) (j : Nat) (v : Int) (h : j < l.length) :
    (l.set j v).sum = l.sum - l.getD j 0 + v := by
  induction l generalizing j with
  | nil => simp at h
  | cons a t ih =>
    cases j with
    | zero => simp [List.set, List.getD]; ring
    | succ n =>
      simp only [List.set, List.sum_cons, List.getD_cons_succ]
      rw [ih n (by simpa using h)]
      ring

/-- Reading below the take boundary sees the original list. -/
theorem getD_take (l : List Int) (n j : Nat) (h : j < n) :
    (l.take n).getD j 0 = l.getD j 0 := by
  induction l generalizing n j with
  | nil => simp
  | cons a t ih =>
    cases n with
    | zero => omega
    | succ m =>
      cases j with
      | zero => simp
      | succ i =>
        simp only [List.take, List.getD_cons_succ]
        exact ih m i (by omega)

/-- One max-scan step keeps the accumulator or moves to the new index. -/
theorem argmaxStep_cases (hist : List Int) (acc j : Nat) :
    argmaxStep hist acc j = j ∨ argmaxStep hist acc j = acc := by
  unfold argmaxStep
  split
  · left; rfl
  · right; rfl

/-- One max-scan step never decreases the tracked value (accumulator side). -/
theorem argmaxStep_ge_left (hist : List Int) (acc j : Nat) :
    hist.getD acc 0 ≤ hist.getD (argmaxStep hist acc j) 0 := by
  unfold argmaxStep
  split
  · rename_i hgt; exact le_of_lt hgt
  · exact le_refl _

/-- One max-scan step never loses to the new index. -/
theorem argmaxStep_ge_right (hist : List Int) (acc j : Nat) :
    hist.getD j 0 ≤ hist.getD (argmaxStep hist acc j) 0 := by
  unfold argmaxStep
  split
  · exact le_refl _
  · rename_i hle; push_neg at hle; exact hle

/-- One min-scan step keeps the accumulator or moves to the new index. -/
theorem argminStep_cases (hist : List Int) (acc j : Nat) :
    argminStep hist acc j = j ∨ argminStep hist acc j = acc := by
  unfold argminStep
  split
  · left; rfl
  · right; rfl

/-- One min-scan step never increases the tracked value (accumulator side). -/
theorem argminStep_le_left (hist : List Int) (acc j : Nat) :
    hist.getD (argminStep hist acc j) 0 ≤ hist.getD acc 0 := by
  unfold argminStep
  split
  · rename_i hlt; exact le_of_lt hlt
  · exact le_refl _

/-- One min-scan step never exceeds the new index. -/
theorem argminStep_le_right (hist : List Int) (acc j : Nat) :
    hist.getD (argminStep hist acc j) 0 ≤ hist.getD j 0 := by
  unfold argminStep
  split
  · exact le_refl _
  · rename_i hge; push_neg at hge; exact hge

/-- The max-scan fold either keeps its seed or returns a scanned index. -/
theorem argmax_foldl_cases (hist : List Int) :
    ∀ (m acc : Nat),
      (List.range m).foldl (argmaxStep hist) acc = acc ∨
      (List.range m).foldl (argmaxStep hist) acc < m := by
  intro m
  induction m with
  | zero => intro acc; left; rfl
  | succ n ih =>
    intro acc
    rw [List.range_succ, List.foldl_append, List.foldl_cons, List.foldl_nil]
    rcases argmaxStep_cases hist ((List.range n).foldl (argmaxStep hist) acc) n with h2 | h2 <;> rw [h2]
    · right; omega
    · rcases ih acc with h | h
      · left; exact h
      · right; omega

/-- The max-scan fold result holds a value at least that of the seed and
of every scanned index. -/
theorem argmax_foldl_ge (hist : List Int) :
    ∀ (m acc : Nat),
      hist.getD acc 0 ≤ hist.getD ((List.range m).foldl (argmaxStep hist) acc) 0 ∧
      ∀ j, j < m → hist.getD j 0 ≤ hist.getD ((List.range m).foldl (argmaxStep hist) acc) 0 := by
  intro m
  induction m with
  | zero =>
    intro acc
    exact ⟨le_refl _, fun j hj => absurd hj (Nat.not_lt_zero j)⟩
  | succ n ih =>
    intro acc
    rw [List.range_succ, List.foldl_append, List.foldl_cons, List.foldl_nil]
    obtain ⟨h1, h2⟩ := ih acc
    refine ⟨le_trans h1 (argmaxStep_ge_left hist _ n), fun j hj => ?_⟩
    rcases Nat.lt_succ_iff_lt_or_eq.mp hj with hj' | hj'
    · exact le_trans (h2 j hj') (argmaxStep_ge_left hist _ n)
    · rw [hj']; exact argmaxStep_ge_right hist _ n

/-- The min-scan fold either keeps its seed or returns a scanned index. -/
theorem argmin_foldl_cases (hist : List Int) :
    ∀ (m acc : Nat),
      (List.range m).foldl (argminStep hist) acc = acc ∨
      (List.range m).foldl (argminStep hist) acc < m := by
  intro m
  induction m with
  | zero => intro acc; left; rfl
  | succ n ih =>
    intro acc
    rw [List.range_succ, List.foldl_append, List.foldl_cons, List.foldl_nil]
    rcases argminStep_cases hist ((List.range n).foldl (argminStep hist) acc) n with h2 | h2 <;> rw [h2]
    · right; omega
    · rcases ih acc with h | h
      · left; exact h
      · right; omega

/-- The min-scan fold result holds a value at most that of the seed and
of every scanned index. -/
theorem argmin_foldl_le (hist : List Int) :
    ∀ (m acc : Nat),
      hist.getD ((List.range m).foldl (argminStep hist) acc) 0 ≤ hist.getD acc 0 ∧
      ∀ j, j < m → hist.getD ((List.range m).foldl (argminStep hist) acc) 0 ≤ hist.getD j 0 := by
  intro m
  induction m with
  | zero =>
    intro acc
    exact ⟨le_refl _, fun j hj => absurd hj (Nat.not_lt_zero j)⟩
  | succ n ih =>
    intro acc
    rw [List.range_succ, List.foldl_append, List.foldl_cons, List.foldl_nil]
    obtain ⟨h1, h2⟩ := ih acc
    refine ⟨le_trans (argminStep_le_left hist _ n) h1, fun j hj => ?_⟩
    rcases Nat.lt_succ_iff_lt_or_eq.mp hj with hj' | hj'
    · exact le_trans (argminStep_le_left hist _ n) (h2 j hj')
    · rw [hj']; exact argminStep_le_right hist _ n

/-- For a positive scan range the max scan lands inside the range. -/
theorem argmaxIdx_lt (hist : List Int) (m : Nat) (hm : 0 < m) :
    argmaxIdx hist m < m := by
  rcases argmax_foldl_cases hist m 0 with h | h
  · rw [argmaxIdx, h]; exact hm
  · exact h

/-- The max scan dominates every scanned slot. -/
theorem argmaxIdx_max (hist : List Int) (m j : Nat) (hj : j < m) :
    hist.getD j 0 ≤ hist.getD (argmaxIdx hist m) 0 :=
  (argmax_foldl_ge hist m 0).2 j hj

/-- For a positive scan range the min scan lands inside the range. -/
theorem argminIdx_lt (hist : List Int) (m : Nat) (hm : 0 < m) :
    argminIdx hist m < m := by
  rcases argmin_foldl_cases hist m 0 with h | h
  · rw [argminIdx, h]; exact hm
  · exact h

/-- The min scan is dominated by every scanned slot. -/
theorem argminIdx_min (hist : List Int) (m j : Nat) (hj : j < m) :
    hist.getD (argminIdx hist m) 0 ≤ hist.getD j 0 :=
  (argmin_foldl_le hist m 0).2 j hj

/-- Byte concatenation: a low byte or-ed with a left-shifted high byte is
exactly the weighted sum. -/
theorem lor_shift8 (lo hi : Nat) (h : lo < 256) :
    lo ||| (hi <<< 8) = 256 * hi + lo := by
  have h' : lo < 2 ^ 8 := by omega
  have key := Nat.mul_add_lt_is_or h' hi
  rw [Nat.shiftLeft_eq, Nat.lor_comm, Nat.mul_comm hi (2 ^ 8), ← key]

/-- Truncation of an integer-valued rational is that integer. -/
theorem ratTrunc_intCast (n : Int) : ratTrunc (n : ℚ) = n := by
  simp [ratTrunc, Rat.num_intCast, Rat.den_intCast, Int.tdiv_one]

/-- The wrapped cursor is always below a positive window size. -/
theorem effScan_lt (s : CompassState) (h : 1 ≤ s.smoothSteps) :
    effScan s < s.smoothSteps := by
  unfold effScan
  split
  · omega
  · rename_i hle
    push_neg at hle
    omega

/-- The running total tracks the window sum across one per-axis update,
provided it tracked it before and the guarded subtraction was not skipped
while a nonzero value was being evicted. -/
theorem axis_total_preserved (steps : Nat) (advanced calUse : Bool) (scan : Nat)
    (hist : List Int) (total raw calib : Int)
    (hscan : scan < steps) (hlen : steps ≤ hist.length)
    (hinv : total = windowSum hist steps)
    (hz : total ≠ 0 ∨ hist.getD scan 0 = 0) :
    (axisSmoothUpdate steps advanced calUse scan hist total raw calib).2.1 =
      windowSum (axisSmoothUpdate steps advanced calUse scan hist total raw calib).1 steps := by
  show (if total ≠ 0 then total - hist.getD scan 0 else total) + (if calUse then calib else raw)
      = windowSum (hist.set scan (if calUse then calib else raw)) steps
  have hws : windowSum (hist.set scan (if calUse then calib else raw)) steps
      = windowSum hist steps - hist.getD scan 0 + (if calUse then calib else raw) := by
    unfold windowSum
    rw [List.set_take, sum_set_getD (hist.take steps) scan _ (by rw [List.length_take]; omega),
      getD_take hist steps scan hscan]
  rw [hws]
  rcases hz with h | h
  · rw [if_pos h]
    omega
  · by_cases ht : total ≠ 0
    · rw [if_pos ht]
      omega
    · rw [if_neg ht, h] at *
      omega

/-- In advanced mode a per-axis update computes its smooth value from a
maximum slot and a minimum slot of the updated history, both found in the
scan range 0 .. steps - 2. -/
theorem axis_advanced_formula (steps : Nat) (advanced calUse : Bool) (scan : Nat)
    (hist : List Int) (total raw calib : Int)
    (ha : advanced = true) (h3 : 3 ≤ steps) :
    ∃ a b : Nat, a ≤ steps - 2 ∧ b ≤ steps - 2 ∧
      (∀ j, j ≤ steps - 2 →
        (axisSmoothUpdate steps advanced calUse scan hist total raw calib).1.getD j 0 ≤
        (axisSmoothUpdate steps advanced calUse scan hist total raw calib).1.getD a 0) ∧
      (∀ j, j ≤ steps - 2 →
        (axisSmoothUpdate steps advanced calUse scan hist total raw calib).1.getD b 0 ≤
        (axisSmoothUpdate steps advanced calUse scan hist total raw calib).1.getD j 0) ∧
      (axisSmoothUpdate steps advanced calUse scan hist total raw calib).2.2 =
        ((axisSmoothUpdate steps advanced calUse scan hist total raw calib).2.1 -
          ((axisSmoothUpdate steps advanced calUse scan hist total raw calib).1.getD a 0 +
           (axisSmoothUpdate steps advanced calUse scan hist total raw calib).1.getD b 0)).tdiv
          ((steps : Int) - 2) := by
  subst ha
  refine ⟨argmaxIdx (hist.set scan (if calUse then calib else raw)) (steps - 1),
          argminIdx (hist.set scan (if calUse then calib else raw)) (steps - 1),
          ?_, ?_, ?_, ?_, ?_⟩
  · have := argmaxIdx_lt (hist.set scan (if calUse then calib else raw)) (steps - 1) (by omega)
    omega
  · have := argminIdx_lt (hist.set scan (if calUse then calib else raw)) (steps - 1) (by omega)
    omega
  · intro j hj
    exact argmaxIdx_max (hist.set scan (if calUse then calib else raw)) (steps - 1) j (by omega)
  · intro j hj
    exact argminIdx_min (hist.set scan (if calUse then calib else raw)) (steps - 1) j (by omega)
  · rfl

/-- C2, corrected.  The claim said the update subtracts the outgoing slot
value unconditionally, making the running sum always equal the window
sum.  In the source the subtraction is guarded by _vTotals[i] != 0, and
the invariant fails once a window legitimately sums to zero: with window
size 2 feeding X samples 5, -5, 7 through read(), the third update skips
the subtraction of the evicted 5, leaving the running total at 7 while
the window holds 7 and -5 (sum 2). -/
theorem C2_counterexample :
    c2Read3.totalX ≠ windowSum c2Read3.histX c2Read3.smoothSteps := by decide

/-- C2 (amended): on every smoothing update, each axis subtracts the
outgoing slot value from its running sum only when that sum is nonzero,
overwrites the slot with the calibrated-if-enabled-else-raw sample, adds
the new value, and the cursor is incremented once after all three axes
(wrapping at the start of the next update); the running sum equals the
window sum again after the update provided it did before and the guard
did not skip the eviction of a nonzero slot value. -/
theorem C2_guarded_update (s : CompassState) (i : Fin 3)
    (hlen : (histAx s i).length = 10)
    (h1 : 1 ≤ s.smoothSteps) (h10 : s.smoothSteps ≤ 10) :
    C2Prop s i := by
  have hscan : effScan s < s.smoothSteps := effScan_lt s h1
  fin_cases i
  · refine ⟨rfl, rfl, rfl, ?_⟩
    intro hinv hz
    exact axis_total_preserved s.smoothSteps s.smoothAdvanced s.calibrationUse (effScan s)
      s.histX s.totalX s.rawX s.calibX hscan (by simp [histAx] at hlen; omega) hinv hz
  · refine ⟨rfl, rfl, rfl, ?_⟩
    intro hinv hz
    exact axis_total_preserved s.smoothSteps s.smoothAdvanced s.calibrationUse (effScan s)
      s.histY s.totalY s.rawY s.calibY hscan (by simp [histAx] at hlen; omega) hinv hz
  · refine ⟨rfl, rfl, rfl, ?_⟩
    intro hinv hz
    exact axis_total_preserved s.smoothSteps s.smoothAdvanced s.calibrationUse (effScan s)
      s.histZ s.totalZ s.rawZ s.calibZ hscan (by simp [histAx] at hlen; omega) hinv hz

/-- C2 witness: the amended statement holds on a concrete fresh state. -/
theorem C2_guarded_update_witness : C2Prop c7Start 0 :=
  C2_guarded_update c7Start 0 (by decide) (by decide) (by decide)

/-- C4: in advanced mode with window size at least 3, the smoothed value
of every axis is (running sum minus the slot at a maximum index minus the
slot at a minimum index) over (window size minus 2) in truncating integer
division, where the maximum and minimum are taken over history indices
0 .. window size - 2 only (index window size - 1 is excluded from the
scan). -/
theorem C4_advanced_smoothing (s : CompassState) (i : Fin 3)
    (hadv : s.smoothAdvanced = true) (h3 : 3 ≤ s.smoothSteps) :
    C4Prop s i := by
  fin_cases i
  · exact axis_advanced_formula s.smoothSteps s.smoothAdvanced s.calibrationUse (effScan s)
      s.histX s.totalX s.rawX s.calibX hadv h3
  · exact axis_advanced_formula s.smoothSteps s.smoothAdvanced s.calibrationUse (effScan s)
      s.histY s.totalY s.rawY s.calibY hadv h3
  · exact axis_advanced_formula s.smoothSteps s.smoothAdvanced s.calibrationUse (effScan s)
      s.histZ s.totalZ s.rawZ s.calibZ hadv h3

/-- C4 witness: the advanced-mode formula holds on a concrete state. -/
theorem C4_advanced_smoothing_witness : C4Prop (setSmoothing initialState 5 true) 0 :=
  C4_advanced_smoothing (setSmoothing initialState 5 true) 0 (by decide) (by decide)

/-- C1, corrected.  The claim said getBearing rounds azimuth / 22.5 to
the nearest integer with ties up, giving getBearing 12 = 1 and
getBearing 359 = 0.  In the source the quotient is stored into an
unsigned long before the fractional part is examined, so the rounding
branch is dead: getBearing 12 = 0 and getBearing 359 = 15. -/
theorem C1_counterexample : getBearing 12 ≠ 1 ∧ getBearing 359 ≠ 0 := by decide

/-- C1 (amended): for every azimuth in [0, 359], getBearing azimuth is
azimuth / 22.5 truncated toward zero, that is 2 * azimuth / 45 in integer
division, which never exceeds 15; the fractional part tested by the
round-half-up branch is always zero, so no rounding up ever occurs; in
particular getBearing 11 = 0, getBearing 12 = 0 and getBearing 359 = 15. -/
theorem C1_bearing_truncation :
    (∀ azimuth : Nat, azimuth ≤ 359 →
      getBearing azimuth = 2 * azimuth / 45 ∧ getBearing azimuth ≤ 15) ∧
    getBearing 11 = 0 ∧ getBearing 12 = 0 ∧ getBearing 359 = 15 := by
  refine ⟨fun az haz => ?_, by decide, by decide, by decide⟩
  have hq : 2 * az / 45 ≤ 15 := by omega
  simp only [getBearing, ite_self]
  rw [Nat.mod_eq_of_lt (by omega)]
  exact ⟨rfl, hq⟩

/-- C1 witness: the amended statement at azimuth 100. -/
theorem C1_bearing_truncation_witness :
    getBearing 100 = 2 * 100 / 45 ∧ getBearing 100 ≤ 15 :=
  C1_bearing_truncation.1 100 (by decide)

/-- C3: when the register-pointer write of read() reports a nonzero bus
status, the whole acquisition body is skipped and the driver state is
returned unchanged: raw, calibrated and smoothed values, history, running
sums and cursor all keep their previous values, and no error is surfaced
(read is total and returns only a state). -/
theorem C3_bus_failure_skips (bus : BusResponse) (s : CompassState)
    (h : bus.status ≠ 0) : read bus s = s := by
  unfold read
  rw [if_neg h]

/-- C3 witness: a NACK status leaves the fresh state untouched. -/
theorem C3_bus_failure_skips_witness : read failBus initialState = initialState :=
  C3_bus_failure_skips failBus initialState (by decide)

theorem log2Fuel_spec : ∀ (fuel n : Nat), 1 ≤ n → n ≤ fuel →
    2 ^ log2Fuel fuel n ≤ n ∧ n < 2 ^ (log2Fuel fuel n + 1) := by
  intro fuel
  induction fuel with
  | zero => intro n h1 h2; omega
  | succ f ih =>
    intro n h1 h2
    simp only [log2Fuel]
    split
    · rename_i hn
      have hf : 1 ≤ f := by
        by_contra hc
        omega
      obtain ⟨ha, hb⟩ := ih (n / 2) (by omega) (by omega)
      constructor
      · rw [pow_succ]
        omega
      · rw [pow_succ]
        omega
    · rename_i hn
      push_neg at hn
      constructor
      · simpa using h1
      · simpa using hn

theorem nlog2_spec (n : Nat) (h : 1 ≤ n) :
    2 ^ nlog2 n ≤ n ∧ n < 2 ^ (nlog2 n + 1) :=
  log2Fuel_spec n n h (le_refl n)

theorem nlog2_eq_of (n k : Nat) (h1 : 2 ^ k ≤ n) (h2 : n < 2 ^ (k + 1)) :
    nlog2 n = k := by
  have hpos : 1 ≤ n := le_trans (Nat.one_le_two_pow) h1
  obtain ⟨ha, hb⟩ := nlog2_spec n hpos
  by_contra hne
  rcases Nat.lt_or_ge (nlog2 n) k with hlt | hge
  · have hle : 2 ^ (nlog2 n + 1) ≤ 2 ^ k := Nat.pow_le_pow_right (by omega) (by omega)
    omega
  · have hk : k < nlog2 n := by omega
    have hle : 2 ^ (k + 1) ≤ 2 ^ nlog2 n := Nat.pow_le_pow_right (by omega) (by omega)
    omega

theorem ratLog2_one (a : Nat) (h : 1 ≤ a) : ratLog2 a 1 = (nlog2 a : Int) := by
  have h1 : nlog2 1 = 0 := rfl
  have hspec := (nlog2_spec a h).1
  unfold ratLog2
  rw [h1]
  simp only [Nat.cast_zero, sub_zero]
  rw [if_pos (Int.natCast_nonneg _), if_pos]
  simpa using hspec
theorem nlog2_le_23 (n : Nat) (h1 : 1 ≤ n) (h2 : n < 2 ^ 24) : nlog2 n ≤ 23 := by
  obtain ⟨ha, hb⟩ := nlog2_spec n h1
  by_contra hc
  have : 2 ^ 24 ≤ 2 ^ nlog2 n := Nat.pow_le_pow_right (by omega) (by omega)
  omega

theorem sig_bounds (n : Nat) (h1 : 1 ≤ n) (h2 : n < 2 ^ 24) :
    2 ^ 23 ≤ n * 2 ^ (23 - nlog2 n) ∧ n * 2 ^ (23 - nlog2 n) < 2 ^ 24 := by
  obtain ⟨ha, hb⟩ := nlog2_spec n h1
  have hL : nlog2 n ≤ 23 := nlog2_le_23 n h1 h2
  constructor
  · have e1 : (2:Nat) ^ 23 = 2 ^ nlog2 n * 2 ^ (23 - nlog2 n) := by
      rw [← pow_add]
      congr 1
      omega
    rw [e1]
    exact Nat.mul_le_mul_right _ ha
  · have e2 : (2:Nat) ^ 24 = 2 ^ (nlog2 n + 1) * 2 ^ (23 - nlog2 n) := by
      rw [← pow_add]
      congr 1
      omega
    rw [e2]
    exact (Nat.mul_lt_mul_right (Nat.two_pow_pos _)).mpr hb

theorem roundRat24_small (n : Nat) (h1 : 1 ≤ n) (h2 : n < 2 ^ 24) :
    roundRat24 n 1 = ⟨((n * 2 ^ (23 - nlog2 n) : Nat) : Int), (nlog2 n : Int) - 23⟩ := by
  have hL : nlog2 n ≤ 23 := nlog2_le_23 n h1 h2
  rcases Nat.lt_or_ge (nlog2 n) 23 with hlt | hge
  · have he : ¬ ((0:Int) ≤ (nlog2 n : Int) - 23) := by omega
    simp only [roundRat24, ratLog2_one n h1, if_neg he]
    have ht : ((-((nlog2 n : Int) - 23)).toNat) = 23 - nlog2 n := by omega
    rw [ht]
    simp [Nat.mod_one, Nat.div_one]
  · have hL23 : nlog2 n = 23 := by omega
    have he : (0:Int) ≤ (nlog2 n : Int) - 23 := by omega
    simp only [roundRat24, ratLog2_one n h1, if_pos he]
    have ht : (((nlog2 n : Int) - 23)).toNat = 0 := by omega
    rw [ht, hL23]
    simp [Nat.mod_one, Nat.div_one]

theorem roundRat24_shift (m : Nat) (h1 : 2 ^ 23 ≤ m) (h2 : m < 2 ^ 24) :
    roundRat24 (m * 2 ^ 23) 1 = ⟨(m : Int), 23⟩ := by
  have hp : (0:Nat) < 2 ^ 23 := Nat.two_pow_pos 23
  have hm1 : 1 ≤ m * 2 ^ 23 := by
    have := Nat.mul_le_mul_right (2 ^ 23) h1
    omega
  have hlog : nlog2 (m * 2 ^ 23) = 46 := by
    apply nlog2_eq_of
    · have e1 : (2:Nat) ^ 46 = 2 ^ 23 * 2 ^ 23 := by norm_num
      rw [e1]
      exact Nat.mul_le_mul_right _ h1
    · have e2 : (2:Nat) ^ 47 = 2 ^ 24 * 2 ^ 23 := by norm_num
      rw [e2]
      exact (Nat.mul_lt_mul_right hp).mpr h2
  have he : (0:Int) ≤ ((46:Nat) : Int) - 23 := by omega
  have ht : (((46:Nat) : Int) - 23).toNat = 23 := by omega
  simp only [roundRat24, ratLog2_one _ hm1, hlog, if_pos he, ht]
  have hq : m * 2 ^ 23 / (1 * 2 ^ 23) = m := by
    rw [one_mul]
    exact Nat.mul_div_cancel m hp
  have hr : m * 2 ^ 23 % (1 * 2 ^ 23) = 0 := by
    rw [one_mul]
    exact Nat.mul_mod_left m (2 ^ 23)
  rw [hq, hr]
  simp only [Nat.mul_zero, one_mul]
  rw [if_pos (by omega : 2 * 0 < 2 ^ 23)]
  norm_num
theorem nlog2_le_15 (n : Nat) (h1 : 1 ≤ n) (h2 : n ≤ 32768) : nlog2 n ≤ 15 := by
  obtain ⟨ha, hb⟩ := nlog2_spec n h1
  by_contra hc
  have : 2 ^ 16 ≤ 2 ^ nlog2 n := Nat.pow_le_pow_right (by omega) (by omega)
  omega

/-- Multiplying the binary32 conversion of an int16 value by the binary32
value one (significand 2^23, exponent -23) and truncating back to int is
the identity: every step is exact in this range. -/
theorem f32_unit_scale (raw : Int) (hl : -32768 ≤ raw) (hr : raw ≤ 32767) :
    f32toInt (f32mul (f32ofInt raw) ⟨8388608, -23⟩) = raw := by
  rcases lt_trichotomy raw 0 with hneg | hzero | hpos
  · -- negative sample
    have hn1 : 1 ≤ (-raw).toNat := by omega
    have hn2 : (-raw).toNat < 2 ^ 24 := by
      have h24 : (2:Nat) ^ 24 = 16777216 := by norm_num
      omega
    set n : Nat := (-raw).toNat with hn
    set L : Nat := nlog2 n with hLdef
    set a : Nat := n * 2 ^ (23 - L) with ha
    obtain ⟨hs1, hs2⟩ := sig_bounds n hn1 hn2
    have hL15 : L ≤ 15 := nlog2_le_15 n hn1 (by omega)
    have hofr : f32ofInt raw = ⟨-((a : Nat) : Int), (L : Int) - 23⟩ := by
      show f32ofRat raw 1 = _
      unfold f32ofRat
      rw [if_neg (by omega), if_neg (by omega), roundRat24_small n hn1 hn2]
    have hapos : (0 : Int) < (a : Int) := by
      have : (0:Nat) < a := by positivity
      omega
    have h0 : ¬ ((-((a : Nat) : Int)) = 0 ∨ (8388608 : Int) = 0) := by
      push_neg
      omega
    have habs : ((-((a : Nat) : Int)) * 8388608).natAbs = a * 2 ^ 23 := by
      have h8 : (8388608 : Int).natAbs = 2 ^ 23 := by decide
      rw [Int.natAbs_mul, Int.natAbs_neg, Int.natAbs_ofNat, h8]
    have hmul : f32mul ⟨-((a : Nat) : Int), (L : Int) - 23⟩ ⟨8388608, -23⟩
        = ⟨-((a : Nat) : Int), (L : Int) - 23⟩ := by
      simp only [f32mul, if_neg h0, habs, roundRat24_shift a hs1 hs2]
      have hsx : (-((a : Nat) : Int)).sign = -1 := by
        rw [Int.sign_eq_neg_one_iff_neg]
        omega
      have hsy : (8388608 : Int).sign = 1 := by decide
      rw [hsx, hsy]
      simp only [F32.mk.injEq]
      constructor
      · ring
      · ring
    rw [hofr, hmul]
    unfold f32toInt
    rw [if_neg (by simp; omega)]
    have ht : ((-((L : Int) - 23)).toNat) = 23 - L := by omega
    rw [ht]
    show (-((a : Nat) : Int)).tdiv (2 ^ (23 - L)) = raw
    have hcast : (-((a : Nat) : Int)) = (-(n : Int)) * (2 : Int) ^ (23 - L) := by
      rw [ha]
      push_cast
      ring
    rw [hcast, Int.mul_tdiv_cancel _ (by positivity)]
    omega
  · -- zero sample
    subst hzero
    decide
  · -- positive sample
    have hn1 : 1 ≤ raw.toNat := by omega
    have hn2 : raw.toNat < 2 ^ 24 := by
      have h24 : (2:Nat) ^ 24 = 16777216 := by norm_num
      omega
    set n : Nat := raw.toNat with hn
    set L : Nat := nlog2 n with hLdef
    set a : Nat := n * 2 ^ (23 - L) with ha
    obtain ⟨hs1, hs2⟩ := sig_bounds n hn1 hn2
    have hL15 : L ≤ 15 := nlog2_le_15 n hn1 (by omega)
    have hofr : f32ofInt raw = ⟨((a : Nat) : Int), (L : Int) - 23⟩ := by
      show f32ofRat raw 1 = _
      unfold f32ofRat
      rw [if_neg (by omega), if_pos (by omega), roundRat24_small n hn1 hn2]
    have hapos : (0 : Int) < (a : Int) := by
      have : (0:Nat) < a := by positivity
      omega
    have h0 : ¬ (((a : Nat) : Int) = 0 ∨ (8388608 : Int) = 0) := by
      push_neg
      omega
    have habs : (((a : Nat) : Int) * 8388608).natAbs = a * 2 ^ 23 := by
      have h8 : (8388608 : Int).natAbs = 2 ^ 23 := by decide
      rw [Int.natAbs_mul, Int.natAbs_ofNat, h8]
    have hmul : f32mul ⟨((a : Nat) : Int), (L : Int) - 23⟩ ⟨8388608, -23⟩
        = ⟨((a : Nat) : Int), (L : Int) - 23⟩ := by
      simp only [f32mul, if_neg h0, habs, roundRat24_shift a hs1 hs2]
      have hsx : (((a : Nat) : Int)).sign = 1 := by
        rw [Int.sign_eq_one_iff_pos]
        omega
      have hsy : (8388608 : Int).sign = 1 := by decide
      rw [hsx, hsy]
      simp only [F32.mk.injEq]
      constructor
      · ring
      · ring
    rw [hofr, hmul]
    unfold f32toInt
    rw [if_neg (by simp; omega)]
    have ht : ((-((L : Int) - 23)).toNat) = 23 - L := by omega
    rw [ht]
    show (((a : Nat) : Int)).tdiv (2 ^ (23 - L)) = raw
    have hcast : (((a : Nat) : Int)) = ((n : Int)) * (2 : Int) ^ (23 - L) := by
      rw [ha]
      push_cast
      ring
    rw [hcast, Int.mul_tdiv_cancel _ (by positivity)]
    omega
/-- C5, corrected.  The claim asserts that each calibrated value equals
(raw - offset) * (avg_delta_all / avg_delta_axis) computed exactly and
truncated.  The program computes the scale and the product in binary32:
with bounds x:(0,2), y:(0,50331650), z:(0,50331651) and raw X sample 3,
the mean delta is 16777217 = 2^24 + 1, whose float cast rounds to
16777216, so the program stores 2 * 16777216 = 33554432 where the exact
formula gives 2 * 16777217 = 33554434. -/
theorem C5_counterexample :
    (_applyCalibration c5CxState).calibX = 33554432 ∧
    calibExactAxis c5CxState.rawX c5CxState.calXmin c5CxState.calXmax
      (avgDeltaAll c5CxState) = 33554434 ∧
    (_applyCalibration c5CxState).calibX ≠
      calibExactAxis c5CxState.rawX c5CxState.calXmin c5CxState.calXmax
        (avgDeltaAll c5CxState) := by
  have h1 : (_applyCalibration c5CxState).calibX = 33554432 := by decide
  have hall : avgDeltaAll c5CxState = 16777217 := by decide
  have h2 : calibExactAxis c5CxState.rawX c5CxState.calXmin c5CxState.calXmax
      (avgDeltaAll c5CxState) = 33554434 := by
    rw [hall]
    show calibExactAxis 3 0 2 16777217 = 33554434
    have hoff : ((0:Int) + 2).tdiv 2 = 1 := by decide
    have hdel : ((2:Int) - 0).tdiv 2 = 1 := by decide
    simp only [calibExactAxis, hoff, hdel]
    norm_num
    rw [show ((33554434 : ℚ)) = (((33554434 : Int)) : ℚ) by norm_num]
    exact ratTrunc_intCast _
  refine ⟨h1, h2, ?_⟩
  rw [h1, h2]
  decide

/-- C5 (amended): each calibrated axis value follows the offset /
average-delta / scale formula of the specification with every
floating-point step rounded to binary32 (the operand conversions, the
scale quotient and the product), and with bounds (-100, 100) on all
three axes the scale is exactly one and calibration is the identity on
raw samples in the int16 range.  The hypotheses keep every per-axis
average delta positive, since bounds with max - min ≤ 1 make the program
divide by zero in float (see f32div). -/
theorem C5_calibration_float (s : CompassState)
    (hx : s.calXmin + 2 ≤ s.calXmax) (hy : s.calYmin + 2 ≤ s.calYmax)
    (hz : s.calZmin + 2 ≤ s.calZmax) : C5Prop s := by
  refine ⟨⟨rfl, rfl, rfl⟩, ?_⟩
  intro ex1 ex2 ey1 ey2 ez1 ez2
  have hoff : ((-100 : Int) + 100).tdiv 2 = 0 := by decide
  have hdel : ((100 : Int) - (-100)).tdiv 2 = 100 := by decide
  have havg : ((100 : Int) + 100 + 100).tdiv 3 = 100 := by decide
  have hsc : f32div (f32ofInt 100) (f32ofInt 100) = ⟨8388608, -23⟩ := by decide
  simp only [_applyCalibration, ex1, ex2, ey1, ey2, ez1, ez2, hoff, hdel, havg, hsc]
  refine ⟨fun h1 h2 => ?_, fun h1 h2 => ?_, fun h1 h2 => ?_⟩
  · rw [sub_zero]
    exact f32_unit_scale s.rawX h1 h2
  · rw [sub_zero]
    exact f32_unit_scale s.rawY h1 h2
  · rw [sub_zero]
    exact f32_unit_scale s.rawZ h1 h2

/-- C5 witness: the amended statement on a concrete state with bounds
(-100, 100) and raw sample (7, -3, 12). -/
theorem C5_calibration_float_witness : C5Prop c5State :=
  C5_calibration_float c5State (by decide) (by decide) (by decide)

/-- C6: reassembling the low and high bytes of the two's-complement
representation of any int16 value as low | high << 8, reinterpreted as a
signed 16-bit integer, returns the original value over the whole range
-32768 .. 32767. -/
theorem C6_int16_roundtrip (v : Int) (h1 : -32768 ≤ v) (h2 : v ≤ 32767) :
    reassemble (lowByte v) (highByte v) = v := by
  have hlo : lowByte v < 256 := Nat.mod_lt _ (by norm_num)
  unfold reassemble
  rw [lor_shift8 (lowByte v) (highByte v) hlo]
  have hsplit : 256 * highByte v + lowByte v = int16Bits v := by
    rw [highByte, lowByte]
    omega
  rw [hsplit]
  simp only [toInt16, int16Bits]
  split <;> omega

/-- C6 witness: the roundtrip at the extreme value -32768. -/
theorem C6_int16_roundtrip_witness :
    reassemble (lowByte (-32768)) (highByte (-32768)) = -32768 :=
  C6_int16_roundtrip (-32768) (by decide) (by decide)

/-- C7: with basic smoothing at window size 5 from a fresh state, feeding
X samples 10, 20, 30, 40, 50 through read() yields a smoothed X of 30
after the fifth sample, and a sixth sample of 60 (evicting the 10) yields
a smoothed X of 40. -/
theorem C7_basic_window5_trace :
    (read (busX 50) (read (busX 40) (read (busX 30)
      (read (busX 20) (read (busX 10) c7Start))))).smoothX = 30 ∧
    (read (busX 60) (read (busX 50) (read (busX 40) (read (busX 30)
      (read (busX 20) (read (busX 10) c7Start)))))).smoothX = 40 := by decide

/-- C8: the exposed axis getter returns the smoothed value when smoothing
is enabled, else the calibrated value when calibration is enabled, else
the raw value, for every axis and state; smoothing takes precedence over
calibration whenever both are enabled; and getX, getY, getZ expose _get
at axes 0, 1, 2. -/
theorem C8_getter_precedence :
    ∀ (s : CompassState) (i : Fin 3),
      _get s i = (if s.smoothUse then smoothAx s i
        else if s.calibrationUse then calibAx s i else rawAx s i) ∧
      (s.smoothUse = true → s.calibrationUse = true → _get s i = smoothAx s i) ∧
      getX s = _get s 0 ∧ getY s = _get s 1 ∧ getZ s = _get s 2 := by
  intro s i
  refine ⟨rfl, ?_, rfl, rfl, rfl⟩
  intro hs _
  simp [_get, hs]

/-- C8 witness: with both smoothing and calibration enabled the getter
returns the smoothed value. -/
theorem C8_getter_precedence_witness : _get c8State 0 = smoothAx c8State 0 :=
  (C8_getter_precedence c8State 0).2.1 rfl rfl

/-- C9: for every azimuth in [0, 359] the bearing is at most 15 and the
getDirection lookup into the 16-row table succeeds, while getBearing 360
is 16 and the lookup at azimuth 360 falls outside the table, so the
caller precondition azimuth <= 359 is what keeps the access in bounds. -/
theorem C9_direction_lookup_bounds :
    (∀ azimuth : Nat, azimuth ≤ 359 →
      getBearing azimuth ≤ 15 ∧ (getDirection azimuth).isSome = true) ∧
    getBearing 360 = 16 ∧ getDirection 360 = none := by
  refine ⟨fun az haz => ?_, by decide, by decide⟩
  have hb : getBearing az ≤ 15 := by
    have hq : 2 * az / 45 ≤ 15 := by omega
    simp only [getBearing, ite_self]
    rw [Nat.mod_eq_of_lt (by omega)]
    exact hq
  refine ⟨hb, ?_⟩
  unfold getDirection
  have hlen : _bearings.length = 16 := by decide
  rw [List.getElem?_eq_getElem (by omega)]
  rfl

/-- C9 witness: the in-bounds half at the boundary azimuth 359. -/
theorem C9_direction_lookup_bounds_witness :
    getBearing 359 ≤ 15 ∧ (getDirection 359).isSome = true :=
  C9_direction_lookup_bounds.1 359 (by decide)

end QMC5883L
